import Mathlib

/-!
Verification of the OCR post-processing core of the OCR_online repository:
the `cleanOcrText` noise-cleaning pipeline, the `calculateSimilarity`
Jaccard gate, the `playTTS` speak-or-suppress decision, the contrast
transform of `preprocessImage`, and the error classification of
`performGeminiOCR`.  All definitions are shallow embeddings of the
TypeScript source, working on `List Char` / `String` / `ℚ`.
-/

/-! ## Character classes used by `cleanOcrText` -/

/-- CJK ideograph test, the `一-龥` range of the source regexes. -/
def isCJK (c : Char) : Bool := 0x4e00 ≤ c.toNat && c.toNat ≤ 0x9fa5

/-- Latin letter or digit, the `a-zA-Z0-9` part of the special-symbol regex. -/
def isAlnumL (c : Char) : Bool :=
  (48 ≤ c.toNat && c.toNat ≤ 57) || (65 ≤ c.toNat && c.toNat ≤ 90) ||
  (97 ≤ c.toNat && c.toNat ≤ 122)

/-- The character set matched by `\s` in JavaScript regular expressions
(also the set trimmed by `String.prototype.trim`). -/
def isJsWs (c : Char) : Bool :=
  let n := c.toNat
  n = 9 || n = 10 || n = 11 || n = 12 || n = 13 || n = 32 || n = 160 ||
  n = 0x1680 || (0x2000 ≤ n && n ≤ 0x200a) || n = 0x2028 || n = 0x2029 ||
  n = 0x202f || n = 0x205f || n = 0x3000 || n = 0xfeff

/-- Newline test (`\n`). -/
def isNl (c : Char) : Bool := c = '\n'

/-- The punctuation the source's step-2 regex excepts from "special symbol":
`，。！?？：；（）「」『』` (note the half-width `?` is in the source's class). -/
def allowedPunct (c : Char) : Bool :=
  c = '，' || c = '。' || c = '！' || c = '?' || c = '？' || c = '：' ||
  c = '；' || c = '（' || c = '）' || c = '「' || c = '」' || c = '『' || c = '』'

/-- A character matching `[^一-龥a-zA-Z0-9\s，。！?？：；（）「」『』]`:
the "special symbol" class of step 2 of `cleanOcrText`. -/
def isSpecialSym (c : Char) : Bool :=
  !(isCJK c || isAlnumL c || isJsWs c || allowedPunct c)

/-- The denylist of step 1 of `cleanOcrText`: the six characters removed
unconditionally (vertical bar, backslash, underscore, tilde, caret,
backtick — code points 124, 92, 95, 126, 94, 96). -/
def denyl (c : Char) : Bool :=
  c.toNat = 124 || c.toNat = 92 || c.toNat = 95 || c.toNat = 126 ||
  c.toNat = 94 || c.toNat = 96

/-- The repeatable-punctuation set of step 3: `[!！?？,，.。]`. -/
def repeatablePunct (c : Char) : Bool :=
  c = '!' || c = '！' || c = '?' || c = '？' || c = ',' || c = '，' ||
  c = '.' || c = '。'

/-- Test whether an optional character (an original-array neighbour in the
step-2 scan) exists and is a CJK ideograph; `none` plays the role of the
falsy `undefined` in `prev && next && ...`. -/
def optCJK : Option Char → Bool
  | none => false
  | some c => isCJK c

/-! ## The `cleanOcrText` pipeline, step by step -/

/-- Step 2 of `cleanOcrText`: the per-character scan over the split string.
`prev` carries the character of the previous index of the original array
(dropped characters still act as neighbours, exactly as `chars[i-1]` does);
the next neighbour is the head of the remaining list.  A character is
dropped when it is a special symbol and both original neighbours exist and
are CJK. -/
def step2Aux : Option Char → List Char → List Char
  | _, [] => []
  | prev, c :: rest =>
    if isSpecialSym c && optCJK prev && optCJK rest.head? then
      step2Aux (some c) rest
    else
      c :: step2Aux (some c) rest

/-- Step 3 of `cleanOcrText`: `replace(/([!！?？,，.。])\1+/g, '$1')`.
Each maximal run of a repeated identical repeatable-punctuation character is
collapsed to a single occurrence. -/
def collapseRuns : List Char → List Char
  | [] => []
  | [c] => [c]
  | c :: c' :: rest =>
    if c = c' ∧ repeatablePunct c = true then collapseRuns (c' :: rest)
    else c :: collapseRuns (c' :: rest)

/-- First half of step 4: `replace(/[ ]+/g, ' ')`, collapsing runs of plain
spaces to a single space. -/
def collapseSpaces : List Char → List Char
  | [] => []
  | [c] => [c]
  | c :: c' :: rest =>
    if c = ' ' ∧ c' = ' ' then collapseSpaces (c' :: rest)
    else c :: collapseSpaces (c' :: rest)

/-- Helper for the `\n\s*\n → \n` replacement: given one maximal whitespace
run `w`, replace the segment from its first newline to its last newline by a
single newline (the greedy global regex match inside the run); a run without
a newline is unchanged. -/
def squashRun (w : List Char) : List Char :=
  if w.any isNl then
    w.takeWhile (fun c => !isNl c) ++
      '\n' :: (w.reverse.takeWhile (fun c => !isNl c)).reverse
  else w

/-- Second half of step 4: `replace(/\n\s*\n/g, '\n')`.  The scan
accumulates the current whitespace run in `buf` (reversed) and squashes each
completed maximal run with `squashRun`. -/
def nlAux (buf : List Char) : List Char → List Char
  | [] => squashRun buf.reverse
  | c :: rest =>
    if isJsWs c then nlAux (c :: buf) rest
    else squashRun buf.reverse ++ c :: nlAux [] rest

/-- Second half of step 4 of `cleanOcrText` as a whole-list transform. -/
def nlCollapse (l : List Char) : List Char := nlAux [] l

/-- The final `.trim()` of step 4: strip JavaScript whitespace from both
ends. -/
def trimWs (l : List Char) : List Char :=
  ((l.dropWhile isJsWs).reverse.dropWhile isJsWs).reverse

/-- The whole `cleanOcrText` pipeline at the character-list level:
denylist filter, special-symbol scan, punctuation-run collapse, space
collapse, blank-line collapse, trim. -/
def cleanL (l : List Char) : List Char :=
  trimWs (nlCollapse (collapseSpaces (collapseRuns
    (step2Aux none (l.filter (fun c => !denyl c))))))

/-- The source's `cleanOcrText : string -> string` (`if (!text) return ""`
followed by the four cleaning steps). -/
def cleanOcrText (s : String) : String :=
  if s = "" then "" else ⟨cleanL s.data⟩

/-! ## Substring search (JavaScript `String.prototype.includes`) -/

/-- Boolean list-prefix test. -/
def isPreL : List Char → List Char → Bool
  | [], _ => true
  | _ :: _, [] => false
  | a :: as, b :: bs => a = b && isPreL as bs

/-- Boolean contiguous-sublist test: `needle` occurs somewhere in `hay`. -/
def containsSubL (needle : List Char) : List Char → Bool
  | [] => isPreL needle []
  | c :: rest => isPreL needle (c :: rest) || containsSubL needle rest

/-- JavaScript `hay.includes(needle)` on strings. -/
def strIncludes (hay needle : String) : Bool := containsSubL needle.data hay.data

/-! ## `calculateSimilarity` (Jaccard index over character sets) -/

/-- The source's `calculateSimilarity`: 0 when either string is empty
(falsy), 1 when the strings are identical, otherwise the Jaccard index of
the two sets of distinct characters, as an exact rational. -/
def calculateSimilarity (s1 s2 : String) : ℚ :=
  if s1 = "" ∨ s2 = "" then 0
  else if s1 = s2 then 1
  else
    ((s1.data.toFinset ∩ s2.data.toFinset).card : ℚ) /
      ((s1.data.toFinset ∪ s2.data.toFinset).card : ℚ)

/-! ## `playTTS` speak-or-suppress decision -/

/-- The decision part of the source's `playTTS`: `true` means the function
reaches `window.speechSynthesis.speak` (playback starts), `false` means it
returned early.  First guard: falsy text, text containing the in-progress
or failure placeholders, or text equal to the no-text sentinel.  Second
guard: smart speech enabled, currently speaking and not forced, with
similarity to the currently spoken text at least 0.25. -/
def playTTS (text currentSpeakingText : String)
    (isSmartSpeech isSpeaking force : Bool) : Bool :=
  if text = "" ∨ strIncludes text "正在辨識" = true ∨
      strIncludes text "辨識失敗" = true ∨ text = "無文字" then
    false
  else if isSmartSpeech && isSpeaking && !force then
    if calculateSimilarity text currentSpeakingText ≥ 1 / 4 then false
    else true
  else true

/-! ## `performGeminiOCR` error classification (the catch handler) -/

/-- Message thrown when the backend error message contains `429`. -/
def rateLimitMsg : String := "API 請求頻率達到限制 (免費版)，請稍等幾秒後重試。"

/-- Message thrown for malformed-image failures. -/
def badImageMsg : String := "影像格式不相容或數據受損，請嘗試重新拍照。"

/-- Prefix of the generic failure message. -/
def genericPre : String := "AI 辨識異常: "

/-- The catch handler of `performGeminiOCR`, as a function of the incoming
error message (an absent `error.message` is modelled by the empty string,
which behaves identically under `includes` and the falsy-fallback). -/
def performGeminiOCRError (msg : String) : String :=
  if strIncludes msg "429" then rateLimitMsg
  else if strIncludes msg "INVALID_ARGUMENT" || strIncludes msg "MIME type" then badImageMsg
  else genericPre ++ (if msg = "" then "未知錯誤" else msg)

/-! ## `preprocessImage` contrast transform -/

/-- The unweighted channel average `(data[i] + data[i+1] + data[i+2]) / 3`. -/
def pixelAvg (r g b : ℚ) : ℚ := (r + g + b) / 3

/-- The contrast value of one pixel: darken by 40 (clamped at 0) below the
threshold 120, otherwise lighten by 40 (clamped at 255). -/
def pixelColor (r g b : ℚ) : ℚ :=
  if pixelAvg r g b < 120 then max 0 (pixelAvg r g b - 40)
  else min 255 (pixelAvg r g b + 40)

/-- The pixel loop of `preprocessImage`: stride-4 walk over the RGBA
buffer, writing the single contrast value to the three colour channels and
leaving the alpha channel unchanged.  A trailing fragment shorter than one
pixel is left untouched. -/
def processData : List ℚ → List ℚ
  | r :: g :: b :: a :: rest =>
    pixelColor r g b :: pixelColor r g b :: pixelColor r g b :: a ::
      processData rest
  | l => l

/-! ## Invariant vocabulary for the cleaned-text properties -/

/-- Two adjacent characters are not an identical pair of repeatable
punctuation marks (the no-run-of-length-two invariant, stated as a relation
on adjacent characters). -/
def noDupRep (a b : Char) : Prop := ¬(a = b ∧ repeatablePunct a = true)

/-- Two adjacent characters are not both plain spaces. -/
def noTwoSp (a b : Char) : Prop := ¬(a = ' ' ∧ b = ' ')

/-- The leading whitespace run of `l` contains a newline. -/
def nlInWsPre (l : List Char) : Bool := (l.takeWhile isJsWs).any isNl

/-- No blank line: after every newline of the list, the following
whitespace run contains no further newline (so no infix of the form
newline, whitespace-only segment, newline exists). -/
def noBlankB : List Char → Bool
  | [] => true
  | c :: rest => (if isNl c then !nlInWsPre rest else true) && noBlankB rest

/-- The allowed-punctuation set exactly as the claim words it: full-width
comma, period, exclamation and question marks, colon, semicolon, the
parenthesis pair and the two CJK quotation-bracket pairs.  Modelled from
the spec for comparison with the source's class `allowedPunct`, which also
contains the half-width question mark. -/
def claimAllowedPunct (c : Char) : Bool :=
  c = '，' || c = '。' || c = '！' || c = '？' || c = '：' || c = '；' ||
  c = '（' || c = '）' || c = '「' || c = '」' || c = '『' || c = '』'

/-! ## Sanity examples (concrete evaluations of the embedding) -/

example : cleanOcrText "這$是一$個" = "這是一個" := by decide
example : cleanOcrText "這, 是" = "這, 是" := by decide
example : cleanOcrText "中!!中" = "中!中" := by decide
example : cleanOcrText "中!中" = "中中" := by decide
example : cleanOcrText "太好了!!!!" = "太好了!" := by decide
example : cleanOcrText "今 | 天_天 ^ 氣 真 好!!!" = "今 天天 氣 真 好!" := by decide
example : cleanOcrText "a    b\n\n\nc" = "a b\nc" := by decide
example : cleanOcrText "這?是" = "這?是" := by decide
example : strIncludes "abc正在辨識xyz" "正在辨識" = true := by decide
example : strIncludes "正在" "正在辨識" = false := by decide
example : performGeminiOCRError "HTTP 429 quota" = rateLimitMsg := by decide
example : performGeminiOCRError "bad MIME type here" = badImageMsg := by decide
example : performGeminiOCRError "boom" = "AI 辨識異常: boom" := by decide
example : performGeminiOCRError "" = "AI 辨識異常: 未知錯誤" := by decide
example : noBlankB ("a\nb".data) = true := by decide
example : noBlankB ("a\n \nb".data) = false := by decide

example : calculateSimilarity "abc" "abc" = 1 := by
  rw [calculateSimilarity, if_neg (by decide), if_pos rfl]

example : calculateSimilarity "" "x" = 0 := by
  rw [calculateSimilarity, if_pos (Or.inl rfl)]

example : calculateSimilarity "abc" "xyz" = 0 := by
  rw [calculateSimilarity, if_neg (by decide), if_neg (by decide)]
  have h1 : ("abc".data.toFinset ∩ "xyz".data.toFinset).card = 0 := by decide
  simp only [h1]
  norm_num

example : calculateSimilarity "ab" "bc" = 1 / 3 := by
  rw [calculateSimilarity, if_neg (by decide), if_neg (by decide)]
  have h1 : ("ab".data.toFinset ∩ "bc".data.toFinset).card = 1 := by decide
  have h2 : ("ab".data.toFinset ∪ "bc".data.toFinset).card = 3 := by decide
  simp only [h1, h2]
  norm_num

example : playTTS "" "x" false false true = false := by
  rw [playTTS, if_pos (Or.inl rfl)]

example : playTTS "你好" "x" true true false = true := by
  rw [playTTS, if_neg (by decide), if_pos (by decide), if_neg ?_]
  rw [calculateSimilarity, if_neg (by decide), if_neg (by decide)]
  have h1 : ("你好".data.toFinset ∩ "x".data.toFinset).card = 0 := by decide
  simp only [h1]
  norm_num

example : playTTS "今天天氣很好" "今天天氣很好嗎" true true false = false := by
  rw [playTTS, if_neg (by decide), if_pos (by decide), if_pos ?_]
  rw [calculateSimilarity, if_neg (by decide), if_neg (by decide)]
  have h1 : ("今天天氣很好".data.toFinset ∩ "今天天氣很好嗎".data.toFinset).card = 5 := by
    decide
  have h2 : ("今天天氣很好".data.toFinset ∪ "今天天氣很好嗎".data.toFinset).card = 6 := by
    decide
  simp only [h1, h2]
  norm_num

example : playTTS "系統正在辨識測試" "" false false false = false := by
  rw [playTTS, if_pos (by decide)]

example : pixelColor 10 10 10 = 0 := by
  rw [pixelColor, pixelAvg, if_pos (by norm_num)]
  norm_num

example : pixelColor 200 200 200 = 240 := by
  rw [pixelColor, pixelAvg, if_neg (by norm_num)]
  norm_num

/-! ## Helper lemmas -/

/-- A CJK ideograph is never a special symbol of the step-2 class. -/
theorem cjk_not_special (c : Char) (h : isCJK c = true) : isSpecialSym c = false := by
  simp [isSpecialSym, h]

/-- String append acts on the underlying character lists. -/
theorem strData_append (s t : String) : (s ++ t).data = s.data ++ t.data := rfl

/-- The generic failure message never coincides with either fixed error
message (its second character is `I` where the rate-limit message has `P`,
and its first character differs from the bad-image message). -/
theorem genericPre_ne_fixed (m : String) :
    genericPre ++ m ≠ rateLimitMsg ∧ genericPre ++ m ≠ badImageMsg := by
  constructor
  · intro h
    have hd : (genericPre ++ m).data.get? 1 = rateLimitMsg.data.get? 1 :=
      congrArg (fun s => s.data.get? 1) h
    have hL : (genericPre ++ m).data.get? 1 = some 'I' := rfl
    have hR : rateLimitMsg.data.get? 1 = some 'P' := rfl
    rw [hL, hR] at hd
    exact absurd hd (by decide)
  · intro h
    have hd : (genericPre ++ m).data.get? 0 = badImageMsg.data.get? 0 :=
      congrArg (fun s => s.data.get? 0) h
    have hL : (genericPre ++ m).data.get? 0 = some 'A' := rfl
    have hR : badImageMsg.data.get? 0 = some '影' := rfl
    rw [hL, hR] at hd
    exact absurd hd (by decide)

/-! ## Claims C1, C2, C4 -/

/-- C1, counterexample: with `force = true` and an empty candidate,
`playTTS` still returns early (no playback), because the empty/placeholder/
sentinel guard precedes the force check — refuting "always returns true
regardless of the candidate's content". -/
theorem C1_counterexample : playTTS "" "回家" true true true = false := by
  rw [playTTS, if_pos (Or.inl rfl)]

/-- C1, amended: for every candidate that passes the first guard (nonempty,
not containing the in-progress or failure placeholder substrings, and not
the no-text sentinel), calling `playTTS` with `force = true` returns true
regardless of the currently spoken text, the smart-speech flag and the
speaking flag. -/
theorem C1_holds (text current : String) (sm sp : Bool)
    (h1 : text ≠ "") (h2 : strIncludes text "正在辨識" = false)
    (h3 : strIncludes text "辨識失敗" = false) (h4 : text ≠ "無文字") :
    playTTS text current sm sp true = true := by
  rw [playTTS, if_neg (by simp [h1, h2, h3, h4]), if_neg (by simp)]

/-- C1, witness: a concrete forced replay that does start playback. -/
theorem C1_witness : playTTS "你好" "" true true true = true :=
  C1_holds "你好" "" true true (by decide) (by decide) (by decide) (by decide)

/-- C2, counterexample: `cleanOcrText` is not idempotent.  On `中!!中` the
first pass collapses the exclamation run, creating a freshly isolated `!`
between two CJK ideographs which only the second pass removes. -/
theorem C2_counterexample :
    cleanOcrText (cleanOcrText "中!!中") ≠ cleanOcrText "中!!中" := by decide

/-- C2, amended: cleaning is idempotent on already-clean input, i.e. on any
string that `cleanOcrText` leaves unchanged; in general a first pass can
create new isolated-symbol patterns (via punctuation-run collapsing), so
`clean (clean x) = clean x` does not hold for every `x`. -/
theorem C2_holds (s : String) (h : cleanOcrText s = s) :
    cleanOcrText (cleanOcrText s) = cleanOcrText s := by rw [h]; exact h

/-- C2, witness: a concrete already-clean string. -/
theorem C2_witness : cleanOcrText (cleanOcrText "中中") = cleanOcrText "中中" :=
  C2_holds "中中" (by decide)

/-- C4, counterexample: the half-width question mark satisfies every
condition of the claim (not CJK, not alphanumeric, not whitespace, not in
the claim's allowed-punctuation list) and sits between two CJK ideographs
in `這?是`, yet `cleanOcrText` keeps it, because the source's character
class additionally allows the half-width `?`. -/
theorem C4_counterexample :
    isCJK '這' = true ∧ isCJK '是' = true ∧
    isCJK '?' = false ∧ isAlnumL '?' = false ∧ isJsWs '?' = false ∧
    claimAllowedPunct '?' = false ∧
    cleanOcrText "這?是" = "這?是" ∧ cleanOcrText "這?是" ≠ "這是" := by decide

/-- C4, amended: in the step-2 scan, every character of the source's
special-symbol class (not CJK, not Latin letter or digit, not whitespace,
and not in the source's allowed set, which also contains the half-width
question mark) whose immediate original neighbours on both sides are CJK
ideographs is dropped; and the claim's two concrete examples hold:
`clean("這$是一$個") = "這是一個"` and `clean("這, 是")` keeps the comma. -/
theorem C4_holds :
    (∀ (p : Option Char) (pre : List Char) (a c h : Char) (t : List Char),
        isCJK a = true → isSpecialSym c = true → isCJK h = true →
        step2Aux p (pre ++ a :: c :: h :: t) = step2Aux p (pre ++ a :: h :: t)) ∧
    cleanOcrText "這$是一$個" = "這是一個" ∧
    cleanOcrText "這, 是" = "這, 是" := by
  refine ⟨?_, by decide, by decide⟩
  intro p pre a c h t ha hc hh
  induction pre generalizing p with
  | nil =>
    have hsa := cjk_not_special a ha
    have hsh := cjk_not_special h hh
    simp [step2Aux, optCJK, hsa, hsh, hc, ha, hh]
  | cons x pre' ih =>
    have hhead : (pre' ++ a :: c :: h :: t).head? = (pre' ++ a :: h :: t).head? := by
      cases pre' <;> rfl
    simp only [List.cons_append, step2Aux, List.append_eq, hhead]
    by_cases hcond :
        (isSpecialSym x && optCJK p && optCJK (pre' ++ a :: h :: t).head?) = true
    · rw [if_pos hcond, if_pos hcond]
      exact ih (some x)
    · rw [if_neg hcond, if_neg hcond, ih (some x)]

/-- C4, witness: the drop rule applied at a concrete isolated dollar sign. -/
theorem C4_witness :
    step2Aux none ([] ++ '中' :: '$' :: '中' :: []) =
      step2Aux none ([] ++ '中' :: '中' :: []) :=
  C4_holds.1 none [] '中' '$' '中' [] (by decide) (by decide) (by decide)

/-! ## Claims C5, C6 (similarity gate) -/

/-- C5: `calculateSimilarity` is the Jaccard index over the character sets
with the source's special cases (0 when either string is empty, taken
first; 1 when the strings are identical), it satisfies the three quoted
examples, and it is symmetric. -/
theorem C5_holds :
    (∀ a b : String, calculateSimilarity a b = calculateSimilarity b a) ∧
    calculateSimilarity "abc" "abc" = 1 ∧
    calculateSimilarity "" "x" = 0 ∧
    calculateSimilarity "abc" "xyz" = 0 ∧
    (∀ a b : String, (a = "" ∨ b = "") → calculateSimilarity a b = 0) ∧
    (∀ a b : String, ¬(a = "" ∨ b = "") → a = b → calculateSimilarity a b = 1) ∧
    (∀ a b : String, ¬(a = "" ∨ b = "") → a ≠ b →
      calculateSimilarity a b =
        ((a.data.toFinset ∩ b.data.toFinset).card : ℚ) /
          ((a.data.toFinset ∪ b.data.toFinset).card : ℚ)) := by
  refine ⟨?_, ?_, ?_, ?_, ?_, ?_, ?_⟩
  · intro a b
    rw [calculateSimilarity, calculateSimilarity]
    by_cases h1 : a = "" ∨ b = ""
    · rw [if_pos h1, if_pos (Or.symm h1)]
    · rw [if_neg h1, if_neg (fun h => h1 (Or.symm h))]
      by_cases h2 : a = b
      · rw [if_pos h2, if_pos h2.symm]
      · rw [if_neg h2, if_neg (fun h => h2 h.symm)]
        rw [Finset.inter_comm, Finset.union_comm]
  · rw [calculateSimilarity, if_neg (by decide), if_pos rfl]
  · rw [calculateSimilarity, if_pos (Or.inl rfl)]
  · rw [calculateSimilarity, if_neg (by decide), if_neg (by decide)]
    have h1 : ("abc".data.toFinset ∩ "xyz".data.toFinset).card = 0 := by decide
    simp only [h1]
    norm_num
  · intro a b h
    rw [calculateSimilarity, if_pos h]
  · intro a b h1 h2
    rw [calculateSimilarity, if_neg h1, if_pos h2]
  · intro a b h1 h2
    rw [calculateSimilarity, if_neg h1, if_neg h2]

/-- C5, witness: the Jaccard branch at the concrete pair `ab`, `bc`. -/
theorem C5_witness :
    calculateSimilarity "ab" "bc" =
      (("ab".data.toFinset ∩ "bc".data.toFinset).card : ℚ) /
        (("ab".data.toFinset ∪ "bc".data.toFinset).card : ℚ) :=
  C5_holds.2.2.2.2.2.2 "ab" "bc" (by decide) (by decide)

/-- C6, counterexample: with smart-suppression disabled, the candidate
`系統正在辨識測試` is non-empty and differs from the sentinel `無文字`, yet
`playTTS` returns false — the first guard also rejects any text merely
containing a placeholder substring, which the claim's hypotheses omit. -/
theorem C6_counterexample : playTTS "系統正在辨識測試" "" false false false = false := by
  rw [playTTS, if_pos (by decide)]

/-- C6, amended: for every candidate passing the full first guard
(nonempty, no placeholder substrings, not the sentinel): with
smart-suppression on, playback active and `force = false`, `playTTS`
returns false iff the similarity to the currently spoken text is at least
0.25; and with smart-suppression off such a candidate always returns
true. -/
theorem C6_holds (text current : String)
    (h1 : text ≠ "") (h2 : strIncludes text "正在辨識" = false)
    (h3 : strIncludes text "辨識失敗" = false) (h4 : text ≠ "無文字") :
    (playTTS text current true true false = false ↔
      calculateSimilarity text current ≥ 1 / 4) ∧
    ∀ sp : Bool, playTTS text current false sp false = true := by
  constructor
  · rw [playTTS, if_neg (by simp [h1, h2, h3, h4]), if_pos (by decide)]
    by_cases hs : calculateSimilarity text current ≥ 1 / 4
    · rw [if_pos hs]
      exact iff_of_true rfl hs
    · rw [if_neg hs]
      exact iff_of_false (by simp) hs
  · intro sp
    rw [playTTS, if_neg (by simp [h1, h2, h3, h4]), if_neg (by simp)]

/-- C6, witness: with smart-suppression off, a dissimilar candidate is
spoken. -/
theorem C6_witness : playTTS "你好" "世界" false true false = true :=
  (C6_holds "你好" "世界" (by decide) (by decide) (by decide) (by decide)).2 true

/-! ## Claim C7 (end-to-end cleaning scenario) -/

/-- C7, counterexample: the raw recognizer output of the scenario does not
clean to `今天天氣真好!`; the single spaces between CJK ideographs survive,
because whitespace is excluded from the special-symbol class. -/
theorem C7_counterexample :
    cleanOcrText "今 | 天_天 ^ 氣 真 好!!!" ≠ "今天天氣真好!" := by decide

/-- C7, amended: the scenario input cleans to `今 天天 氣 真 好!` — the
denylisted characters are removed, the exclamation run collapses, and the
interior whitespace collapses to single spaces but is retained. -/
theorem C7_holds :
    cleanOcrText "今 | 天_天 ^ 氣 真 好!!!" = "今 天天 氣 真 好!" := by decide

/-! ## Claim C8 (contrast transform) -/

/-- C8: the pixel loop computes the unweighted average of the three colour
channels, darkens by 40 clamped at 0 below the threshold 120 and otherwise
lightens by 40 clamped at 255, writes that single value to all three colour
channels, leaves the alpha channel unchanged, and the written value stays
within the byte range when the inputs do. -/
theorem C8_holds (r g b a : ℚ) (rest : List ℚ)
    (hr0 : 0 ≤ r) (hr1 : r ≤ 255) (hg0 : 0 ≤ g) (hg1 : g ≤ 255)
    (hb0 : 0 ≤ b) (hb1 : b ≤ 255) :
    ∃ c : ℚ,
      processData (r :: g :: b :: a :: rest) = c :: c :: c :: a :: processData rest ∧
      c = (if (r + g + b) / 3 < 120 then max 0 ((r + g + b) / 3 - 40)
        else min 255 ((r + g + b) / 3 + 40)) ∧
      0 ≤ c ∧ c ≤ 255 := by
  refine ⟨pixelColor r g b, rfl, by rw [pixelColor, pixelAvg], ?_⟩
  rw [pixelColor, pixelAvg]
  by_cases hc : (r + g + b) / 3 < 120
  · rw [if_pos hc]
    constructor
    · exact le_max_left 0 _
    · refine max_le (by norm_num) ?_
      have : (r + g + b) / 3 ≤ 255 := by
        rw [div_le_iff₀ (by norm_num : (0:ℚ) < 3)]
        linarith
      linarith
  · rw [if_neg hc]
    push_neg at hc
    constructor
    · refine le_min (by norm_num) ?_
      linarith
    · exact min_le_left _ _

/-- C8, witness: the transform at a concrete dark pixel. -/
theorem C8_witness :
    ∃ c : ℚ,
      processData [10, 10, 10, 7] = c :: c :: c :: 7 :: processData [] ∧
      c = (if (10 + 10 + 10 : ℚ) / 3 < 120 then max 0 ((10 + 10 + 10 : ℚ) / 3 - 40)
        else min 255 ((10 + 10 + 10 : ℚ) / 3 + 40)) ∧
      0 ≤ c ∧ c ≤ 255 :=
  C8_holds 10 10 10 7 [] (by norm_num) (by norm_num) (by norm_num) (by norm_num)
    (by norm_num) (by norm_num)

/-! ## Claim C9 (error taxonomy) -/

/-- C9: the catch handler of `performGeminiOCR` surfaces exactly three
distinct user-presentable messages: the rate-limit message when the error
message contains `429`, the re-capture message when it contains
`INVALID_ARGUMENT` or `MIME type` (and not `429`), and otherwise a generic
message carrying the underlying error message; the three categories are
pairwise distinct. -/
theorem C9_holds :
    (∀ msg : String, strIncludes msg "429" = true →
        performGeminiOCRError msg = rateLimitMsg) ∧
    (∀ msg : String, strIncludes msg "429" = false →
        (strIncludes msg "INVALID_ARGUMENT" || strIncludes msg "MIME type") = true →
        performGeminiOCRError msg = badImageMsg) ∧
    (∀ msg : String, strIncludes msg "429" = false →
        strIncludes msg "INVALID_ARGUMENT" = false →
        strIncludes msg "MIME type" = false →
        msg ≠ "" → performGeminiOCRError msg = genericPre ++ msg) ∧
    rateLimitMsg ≠ badImageMsg ∧
    (∀ msg : String,
        genericPre ++ msg ≠ rateLimitMsg ∧ genericPre ++ msg ≠ badImageMsg) := by
  refine ⟨?_, ?_, ?_, by decide, fun msg => genericPre_ne_fixed msg⟩
  · intro msg h
    rw [performGeminiOCRError, if_pos h]
  · intro msg h429 hor
    rw [performGeminiOCRError, if_neg (by simp [h429]), if_pos hor]
  · intro msg h429 hinv hmime hne
    rw [performGeminiOCRError, if_neg (by simp [h429]),
      if_neg (by simp [hinv, hmime]), if_neg hne]

/-- C9, witness: a concrete quota failure maps to the rate-limit message. -/
theorem C9_witness : performGeminiOCRError "Error 429 quota" = rateLimitMsg :=
  C9_holds.1 "Error 429 quota" (by decide)

/-! ## Claim C10 (placeholder guard of playTTS) -/

/-- C10: `playTTS` refuses to start playback — for every setting of the
flags, including `force = true` — whenever the text is empty, contains the
substring `正在辨識` or `辨識失敗` anywhere, or equals the sentinel
`無文字`. -/
theorem C10_holds (text current : String) (sm sp force : Bool)
    (h : text = "" ∨ strIncludes text "正在辨識" = true ∨
      strIncludes text "辨識失敗" = true ∨ text = "無文字") :
    playTTS text current sm sp force = false := by
  rw [playTTS, if_pos h]

/-- C10, witness: legitimately recognized text merely containing the
failure placeholder substring is suppressed even under force. -/
theorem C10_witness : playTTS "古文辨識失敗了" "" true false true = false :=
  C10_holds "古文辨識失敗了" "" true false true (by decide)

/-! ## Machinery for the cleaned-text invariant (claim C3) -/

/-- Collapsing punctuation runs preserves the head character. -/
theorem collapseRuns_head? : ∀ l : List Char, (collapseRuns l).head? = l.head?
  | [] => rfl
  | [_] => rfl
  | c :: c' :: rest => by
    simp only [collapseRuns]
    by_cases h : c = c' ∧ repeatablePunct c = true
    · rw [if_pos h, collapseRuns_head? (c' :: rest)]
      simp [h.1]
    · rw [if_neg h]
      rfl

/-- Collapsing space runs preserves the head character. -/
theorem collapseSpaces_head? : ∀ l : List Char, (collapseSpaces l).head? = l.head?
  | [] => rfl
  | [_] => rfl
  | c :: c' :: rest => by
    simp only [collapseSpaces]
    by_cases h : c = ' ' ∧ c' = ' '
    · rw [if_pos h, collapseSpaces_head? (c' :: rest)]
      simp [h.1, h.2]
    · rw [if_neg h]
      rfl

/-- After `collapseRuns`, no two adjacent characters are an identical
repeatable-punctuation pair. -/
theorem chain'_collapseRuns : ∀ l : List Char, List.Chain' noDupRep (collapseRuns l)
  | [] => List.chain'_nil
  | [c] => List.chain'_singleton c
  | c :: c' :: rest => by
    simp only [collapseRuns]
    by_cases h : c = c' ∧ repeatablePunct c = true
    · rw [if_pos h]
      exact chain'_collapseRuns (c' :: rest)
    · rw [if_neg h, List.chain'_cons']
      refine ⟨?_, chain'_collapseRuns (c' :: rest)⟩
      intro y hy
      rw [collapseRuns_head? (c' :: rest)] at hy
      simp only [List.head?_cons, Option.mem_def, Option.some.injEq] at hy
      subst hy
      exact h

/-- `collapseSpaces` preserves any adjacency invariant. -/
theorem collapseSpaces_chain' {R : Char → Char → Prop} :
    ∀ l : List Char, List.Chain' R l → List.Chain' R (collapseSpaces l)
  | [], h => h
  | [_], h => h
  | c :: c' :: rest, h => by
    simp only [collapseSpaces]
    by_cases hc : c = ' ' ∧ c' = ' '
    · rw [if_pos hc]
      exact collapseSpaces_chain' (c' :: rest) h.tail
    · rw [if_neg hc, List.chain'_cons']
      refine ⟨?_, collapseSpaces_chain' (c' :: rest) h.tail⟩
      intro y hy
      rw [collapseSpaces_head? (c' :: rest)] at hy
      simp only [List.head?_cons, Option.mem_def, Option.some.injEq] at hy
      subst hy
      exact (List.chain'_cons.mp h).1

/-- After `collapseSpaces`, no two adjacent characters are both plain
spaces. -/
theorem collapseSpaces_noTwoSp : ∀ l : List Char, List.Chain' noTwoSp (collapseSpaces l)
  | [] => List.chain'_nil
  | [c] => List.chain'_singleton c
  | c :: c' :: rest => by
    simp only [collapseSpaces]
    by_cases h : c = ' ' ∧ c' = ' '
    · rw [if_pos h]
      exact collapseSpaces_noTwoSp (c' :: rest)
    · rw [if_neg h, List.chain'_cons']
      refine ⟨?_, collapseSpaces_noTwoSp (c' :: rest)⟩
      intro y hy
      rw [collapseSpaces_head? (c' :: rest)] at hy
      simp only [List.head?_cons, Option.mem_def, Option.some.injEq] at hy
      subst hy
      exact h

/-- Head of a squashed whitespace run: replacing the first-to-last newline
segment keeps the first character. -/
theorem headTakeNl (v : List Char) (hv : v.any isNl = true) (X : List Char) :
    (v.takeWhile (fun c => !isNl c) ++ '\n' :: X).head? = v.head? := by
  cases v with
  | nil => simp at hv
  | cons a v' =>
    by_cases ha : isNl a = true
    · have ha' : a = '\n' := by simpa [isNl] using ha
      subst ha'
      rw [List.takeWhile_cons_of_neg (by simp [isNl])]
      rfl
    · rw [List.takeWhile_cons_of_pos (by simp [Bool.not_eq_true] at ha; simp [ha])]
      rfl

/-- `squashRun` preserves the head character of the run. -/
theorem squashRun_head? (w : List Char) : (squashRun w).head? = w.head? := by
  rw [squashRun]
  by_cases ha : w.any isNl = true
  · rw [if_pos ha]
    exact headTakeNl w ha _
  · rw [if_neg ha]

/-- `squashRun` preserves the last character of the run. -/
theorem squashRun_getLast? (w : List Char) : (squashRun w).getLast? = w.getLast? := by
  rw [squashRun]
  by_cases ha : w.any isNl = true
  · rw [if_pos ha]
    have har : w.reverse.any isNl = true := by
      rw [List.any_eq_true] at ha ⊢
      obtain ⟨x, hx, hnx⟩ := ha
      exact ⟨x, List.mem_reverse.mpr hx, hnx⟩
    have hrev :
        (w.takeWhile (fun c => !isNl c) ++
            '\n' :: (w.reverse.takeWhile (fun c => !isNl c)).reverse).reverse =
          w.reverse.takeWhile (fun c => !isNl c) ++
            '\n' :: (w.takeWhile (fun c => !isNl c)).reverse := by
      simp
    rw [List.getLast?_eq_head?_reverse, hrev, headTakeNl w.reverse har _,
      List.head?_reverse]
  · rw [if_neg ha]

/-- `nlAux` on an all-whitespace tail squashes the accumulated run. -/
theorem nlAux_allWs : ∀ (w buf : List Char), (∀ a ∈ w, isJsWs a = true) →
    nlAux buf w = squashRun (buf.reverse ++ w)
  | [], buf, _ => by simp [nlAux]
  | a :: w', buf, hws => by
    simp only [nlAux]
    rw [if_pos (hws a (List.mem_cons_self a w'))]
    rw [nlAux_allWs w' (a :: buf) (fun x hx => hws x (List.mem_cons_of_mem a hx))]
    simp

/-- `nlAux` across the first non-whitespace character: the accumulated run
is squashed and emitted, the non-whitespace character follows, and the scan
restarts with an empty buffer. -/
theorem nlAux_split : ∀ (w buf : List Char) (c : Char) (t : List Char),
    (∀ a ∈ w, isJsWs a = true) → isJsWs c = false →
    nlAux buf (w ++ c :: t) = squashRun (buf.reverse ++ w) ++ c :: nlAux [] t
  | [], buf, c, t, _, hc => by
    simp only [List.nil_append, nlAux]
    rw [if_neg (by simp [hc])]
    simp
  | a :: w', buf, c, t, hws, hc => by
    simp only [List.cons_append, nlAux, List.append_eq]
    rw [if_pos (hws a (List.mem_cons_self a w'))]
    rw [nlAux_split w' (a :: buf) c t (fun x hx => hws x (List.mem_cons_of_mem a hx)) hc]
    simp

/-- `nlAux` preserves the head of the virtual list `buf.reverse ++ l`. -/
theorem nlAux_head? : ∀ (l buf : List Char), (nlAux buf l).head? = (buf.reverse ++ l).head?
  | [], buf => by
    simp only [nlAux, squashRun_head?]
    simp
  | c :: rest, buf => by
    simp only [nlAux]
    by_cases hc : isJsWs c = true
    · rw [if_pos hc, nlAux_head? rest (c :: buf)]
      simp
    · rw [if_neg hc]
      simp [List.head?_append, squashRun_head?]

/-- The blank-line collapse preserves the head character. -/
theorem nlCollapse_head? (l : List Char) : (nlCollapse l).head? = l.head? := by
  rw [nlCollapse, nlAux_head? l []]
  rfl

/-- The head of a `dropWhile` result falsifies the predicate. -/
theorem dropWhile_head_false {p : Char → Bool} :
    ∀ (l : List Char) (c : Char) (t : List Char), l.dropWhile p = c :: t → p c = false
  | [], c, t, h => by simp at h
  | a :: l', c, t, h => by
    rw [List.dropWhile_cons] at h
    by_cases hp : p a = true
    · rw [if_pos hp] at h
      exact dropWhile_head_false l' c t h
    · rw [if_neg hp] at h
      simp only [Bool.not_eq_true] at hp
      injection h with h1 _
      subst h1
      exact hp

/-- `squashRun` preserves an adjacency invariant that tolerates newlines on
either side. -/
theorem squashRun_chain' {R : Char → Char → Prop}
    (h1 : ∀ x, R x '\n') (h2 : ∀ x, R '\n' x) (w : List Char)
    (hw : List.Chain' R w) : List.Chain' R (squashRun w) := by
  rw [squashRun]
  by_cases ha : w.any isNl = true
  · rw [if_pos ha]
    have hP : List.Chain' R (w.takeWhile (fun c => !isNl c)) := by
      have hw' := hw
      rw [← List.takeWhile_append_dropWhile (fun c => !isNl c) w] at hw'
      exact (List.chain'_append.mp hw').1
    have hS : List.Chain' R (w.reverse.takeWhile (fun c => !isNl c)).reverse := by
      have hsplit := List.takeWhile_append_dropWhile (fun c => !isNl c) w.reverse
      have hw2 : w = (w.reverse.dropWhile (fun c => !isNl c)).reverse ++
          (w.reverse.takeWhile (fun c => !isNl c)).reverse := by
        conv_lhs => rw [← List.reverse_reverse w, ← hsplit]
        rw [List.reverse_append]
      have hw' := hw
      rw [hw2] at hw'
      exact (List.chain'_append.mp hw').2.1
    refine List.chain'_append.mpr ⟨hP, ?_, ?_⟩
    · rw [List.chain'_cons']
      exact ⟨fun y _ => h2 y, hS⟩
    · intro x _ y hy
      simp only [List.head?_cons, Option.mem_def, Option.some.injEq] at hy
      subst hy
      exact h1 x
  · rw [if_neg ha]
    exact hw

/-- The blank-line collapse preserves an adjacency invariant that tolerates
newlines on either side. -/
theorem nlCollapse_chain' {R : Char → Char → Prop}
    (h1 : ∀ x, R x '\n') (h2 : ∀ x, R '\n' x) :
    ∀ (n : ℕ) (l : List Char), l.length ≤ n → List.Chain' R l →
      List.Chain' R (nlCollapse l)
  | 0, l, hn, _ => by
    have hl : l = [] := List.length_eq_zero.mp (Nat.le_zero.mp hn)
    subst hl
    simp [nlCollapse, nlAux, squashRun]
  | Nat.succ n, l, hn, hch => by
    have hws : ∀ a ∈ l.takeWhile isJsWs, isJsWs a = true := fun a ha =>
      List.mem_takeWhile_imp ha
    have hsplit := List.takeWhile_append_dropWhile isJsWs l
    cases hr : l.dropWhile isJsWs with
    | nil =>
      have hl : l.takeWhile isJsWs = l := by
        rw [hr, List.append_nil] at hsplit
        exact hsplit
      have hws' : ∀ a ∈ l, isJsWs a = true := by
        rw [← hl]
        exact hws
      rw [nlCollapse, nlAux_allWs l [] hws']
      simp only [List.reverse_nil, List.nil_append]
      exact squashRun_chain' h1 h2 l hch
    | cons c t =>
      have hc : isJsWs c = false := dropWhile_head_false l c t hr
      have hlsplit : l = l.takeWhile isJsWs ++ c :: t := by
        conv_lhs => rw [← hsplit, hr]
      have heq : nlCollapse l = squashRun (l.takeWhile isJsWs) ++ c :: nlCollapse t := by
        rw [nlCollapse, nlCollapse]
        conv_lhs => rw [hlsplit]
        rw [nlAux_split _ [] c t hws hc]
        simp
      rw [heq]
      have hch2 := hch
      rw [hlsplit] at hch2
      obtain ⟨chW, chCT, hbd⟩ := List.chain'_append.mp hch2
      have hlen : t.length ≤ n := by
        have hlen' : t.length + 1 ≤ l.length := by
          rw [hlsplit, List.length_append, List.length_cons]
          omega
        omega
      refine List.chain'_append.mpr ⟨squashRun_chain' h1 h2 _ chW, ?_, ?_⟩
      · rw [List.chain'_cons']
        constructor
        · intro y hy
          rw [nlCollapse_head? t] at hy
          exact (List.chain'_cons'.mp chCT).1 y hy
        · exact nlCollapse_chain' h1 h2 n t hlen chCT.tail
      · intro x hx y hy
        simp only [List.head?_cons, Option.mem_def, Option.some.injEq] at hy
        subst hy
        rw [squashRun_getLast? _] at hx
        exact hbd x hx c (by simp)

/-- Members of a `takeWhile` are members of the list. -/
theorem mem_takeWhile_mem {q : Char → Bool} :
    ∀ (l : List Char) (a : Char), a ∈ l.takeWhile q → a ∈ l
  | [], a, h => by simp at h
  | b :: l', a, h => by
    by_cases hb : q b = true
    · rw [List.takeWhile_cons_of_pos hb] at h
      rcases List.mem_cons.mp h with h1 | h2
      · exact h1 ▸ List.mem_cons_self b l'
      · exact List.mem_cons_of_mem b (mem_takeWhile_mem l' a h2)
    · rw [List.takeWhile_cons_of_neg hb] at h
      simp at h

/-- `takeWhile` of a list all of whose members satisfy the predicate. -/
theorem takeWhile_all (q : Char → Bool) :
    ∀ (S : List Char), (∀ a ∈ S, q a = true) → S.takeWhile q = S
  | [], _ => rfl
  | a :: S', h => by
    rw [List.takeWhile_cons_of_pos (h a (List.mem_cons_self a S'))]
    rw [takeWhile_all q S' (fun x hx => h x (List.mem_cons_of_mem a hx))]

/-- `takeWhile` across a satisfying block up to a falsifying character. -/
theorem takeWhile_all_stop (q : Char → Bool) :
    ∀ (S : List Char) (c : Char) (Y : List Char),
      (∀ a ∈ S, q a = true) → q c = false → (S ++ c :: Y).takeWhile q = S
  | [], c, Y, _, hc => by
    rw [List.nil_append, List.takeWhile_cons_of_neg (by simp [hc])]
  | a :: S', c, Y, h, hc => by
    rw [List.cons_append, List.takeWhile_cons_of_pos (h a (List.mem_cons_self a S'))]
    rw [takeWhile_all_stop q S' c Y (fun x hx => h x (List.mem_cons_of_mem a hx)) hc]

/-- A newline-free prefix block keeps the blank-line predicate of the rest. -/
theorem noBlankB_skip : ∀ (p X : List Char), (∀ a ∈ p, isNl a = false) →
    noBlankB (p ++ X) = noBlankB X
  | [], X, _ => rfl
  | a :: p', X, h => by
    have ha : isNl a = false := h a (List.mem_cons_self a p')
    simp only [List.cons_append, noBlankB]
    rw [if_neg (by simp [ha]), Bool.true_and]
    exact noBlankB_skip p' X (fun x hx => h x (List.mem_cons_of_mem a hx))

/-- A newline in the whitespace prefix of a left part is a newline in the
whitespace prefix of the appended list. -/
theorem nlInWsPre_mono : ∀ (A B : List Char), nlInWsPre (A ++ B) = false →
    nlInWsPre A = false
  | [], _, _ => rfl
  | a :: A', B, h => by
    by_cases hws : isJsWs a = true
    · rw [nlInWsPre, List.takeWhile_cons_of_pos hws, List.any_cons,
        Bool.or_eq_false_iff]
      rw [List.cons_append, nlInWsPre, List.takeWhile_cons_of_pos hws, List.any_cons,
        Bool.or_eq_false_iff] at h
      refine ⟨h.1, ?_⟩
      have hrec := nlInWsPre_mono A' B (by rw [nlInWsPre]; exact h.2)
      rw [nlInWsPre] at hrec
      exact hrec
    · rw [nlInWsPre, List.takeWhile_cons_of_neg hws]
      rfl

/-- The blank-line predicate restricts to a left part of an append. -/
theorem noBlankB_append_left : ∀ (A B : List Char), noBlankB (A ++ B) = true →
    noBlankB A = true
  | [], _, _ => rfl
  | a :: A', B, h => by
    rw [List.cons_append] at h
    simp only [noBlankB, Bool.and_eq_true] at h ⊢
    obtain ⟨h1, h2⟩ := h
    refine ⟨?_, noBlankB_append_left A' B h2⟩
    by_cases hnl : isNl a = true
    · rw [if_pos hnl] at h1 ⊢
      rw [Bool.not_eq_true'] at h1 ⊢
      exact nlInWsPre_mono A' B h1
    · rw [if_neg hnl]

/-- The blank-line predicate restricts to a right part of an append. -/
theorem noBlankB_append_right : ∀ (A B : List Char), noBlankB (A ++ B) = true →
    noBlankB B = true
  | [], _, h => h
  | a :: A', B, h => by
    rw [List.cons_append] at h
    simp only [noBlankB, Bool.and_eq_true] at h
    exact noBlankB_append_right A' B h.2

/-- Squashing an all-whitespace run followed by a non-whitespace character
and a blank-line-free rest is blank-line free. -/
theorem noBlankB_squash_append (w : List Char) (c : Char) (Y : List Char)
    (hws : ∀ a ∈ w, isJsWs a = true) (hc : isJsWs c = false)
    (hY : noBlankB Y = true) : noBlankB (squashRun w ++ c :: Y) = true := by
  have hcnl : isNl c = false := by
    by_cases h : isNl c = true
    · have hcn : c = '\n' := by simpa [isNl] using h
      subst hcn
      exact absurd hc (by decide)
    · simpa [Bool.not_eq_true] using h
  have hCY : noBlankB (c :: Y) = true := by
    simp only [noBlankB]
    rw [if_neg (by simp [hcnl]), Bool.true_and]
    exact hY
  rw [squashRun]
  by_cases ha : w.any isNl = true
  · rw [if_pos ha]
    have hPnl : ∀ a ∈ w.takeWhile (fun x => !isNl x), isNl a = false := by
      intro a hmem
      have hp := List.mem_takeWhile_imp hmem
      simpa using hp
    have hSnl : ∀ a ∈ (w.reverse.takeWhile (fun x => !isNl x)).reverse,
        isNl a = false := by
      intro a hmem
      have hmem' : a ∈ w.reverse.takeWhile (fun x => !isNl x) :=
        List.mem_reverse.mp hmem
      have hp := List.mem_takeWhile_imp hmem'
      simpa using hp
    have hSws : ∀ a ∈ (w.reverse.takeWhile (fun x => !isNl x)).reverse,
        isJsWs a = true := by
      intro a hmem
      have hmem' : a ∈ w.reverse.takeWhile (fun x => !isNl x) :=
        List.mem_reverse.mp hmem
      have hmw : a ∈ w.reverse := mem_takeWhile_mem _ a hmem'
      exact hws a (List.mem_reverse.mp hmw)
    have hassoc : (w.takeWhile (fun x => !isNl x) ++
          '\n' :: (w.reverse.takeWhile (fun x => !isNl x)).reverse) ++ c :: Y =
        w.takeWhile (fun x => !isNl x) ++
          '\n' :: ((w.reverse.takeWhile (fun x => !isNl x)).reverse ++ c :: Y) := by
      simp
    rw [hassoc, noBlankB_skip _ _ hPnl]
    simp only [noBlankB]
    rw [if_pos (by decide : isNl '\n' = true), Bool.and_eq_true]
    constructor
    · rw [Bool.not_eq_true', nlInWsPre, takeWhile_all_stop isJsWs _ c Y hSws hc]
      rw [List.any_eq_false]
      intro x hx
      rw [hSnl x hx]
      simp
    · rw [noBlankB_skip _ _ hSnl]
      exact hCY
  · rw [if_neg ha]
    have hwnl : ∀ a ∈ w, isNl a = false := by
      intro a hmem
      by_cases h : isNl a = true
      · exact absurd (List.any_eq_true.mpr ⟨a, hmem, h⟩) ha
      · simpa [Bool.not_eq_true] using h
    rw [noBlankB_skip w (c :: Y) hwnl]
    exact hCY

/-- Squashing an all-whitespace run is blank-line free. -/
theorem noBlankB_squash (w : List Char) (hws : ∀ a ∈ w, isJsWs a = true) :
    noBlankB (squashRun w) = true := by
  rw [squashRun]
  by_cases ha : w.any isNl = true
  · rw [if_pos ha]
    have hPnl : ∀ a ∈ w.takeWhile (fun x => !isNl x), isNl a = false := by
      intro a hmem
      have hp := List.mem_takeWhile_imp hmem
      simpa using hp
    have hSnl : ∀ a ∈ (w.reverse.takeWhile (fun x => !isNl x)).reverse,
        isNl a = false := by
      intro a hmem
      have hmem' : a ∈ w.reverse.takeWhile (fun x => !isNl x) :=
        List.mem_reverse.mp hmem
      have hp := List.mem_takeWhile_imp hmem'
      simpa using hp
    rw [noBlankB_skip _ _ hPnl]
    simp only [noBlankB]
    rw [if_pos (by decide : isNl '\n' = true), Bool.and_eq_true]
    constructor
    · rw [Bool.not_eq_true', nlInWsPre]
      rw [List.any_eq_false]
      intro x hx
      have hx' := mem_takeWhile_mem _ x hx
      rw [hSnl x hx']
      simp
    · have hskip := noBlankB_skip ((w.reverse.takeWhile (fun x => !isNl x)).reverse) [] hSnl
      rw [List.append_nil] at hskip
      rw [hskip]
      rfl
  · rw [if_neg ha]
    have hwnl : ∀ a ∈ w, isNl a = false := by
      intro a hmem
      by_cases h : isNl a = true
      · exact absurd (List.any_eq_true.mpr ⟨a, hmem, h⟩) ha
      · simpa [Bool.not_eq_true] using h
    have hskip := noBlankB_skip w [] hwnl
    rw [List.append_nil] at hskip
    rw [hskip]
    rfl

/-- The blank-line collapse leaves no blank line, for every input. -/
theorem noBlankB_nlCollapse : ∀ (n : ℕ) (l : List Char), l.length ≤ n →
    noBlankB (nlCollapse l) = true
  | 0, l, hn => by
    have hl : l = [] := List.length_eq_zero.mp (Nat.le_zero.mp hn)
    subst hl
    rfl
  | Nat.succ n, l, hn => by
    have hws : ∀ a ∈ l.takeWhile isJsWs, isJsWs a = true := fun a ha =>
      List.mem_takeWhile_imp ha
    have hsplit := List.takeWhile_append_dropWhile isJsWs l
    cases hr : l.dropWhile isJsWs with
    | nil =>
      have hl : l.takeWhile isJsWs = l := by
        rw [hr, List.append_nil] at hsplit
        exact hsplit
      have hws' : ∀ a ∈ l, isJsWs a = true := by
        rw [← hl]
        exact hws
      rw [nlCollapse, nlAux_allWs l [] hws']
      simp only [List.reverse_nil, List.nil_append]
      exact noBlankB_squash l hws'
    | cons c t =>
      have hc : isJsWs c = false := dropWhile_head_false l c t hr
      have hlsplit : l = l.takeWhile isJsWs ++ c :: t := by
        conv_lhs => rw [← hsplit, hr]
      have heq : nlCollapse l = squashRun (l.takeWhile isJsWs) ++ c :: nlCollapse t := by
        rw [nlCollapse, nlCollapse]
        conv_lhs => rw [hlsplit]
        rw [nlAux_split _ [] c t hws hc]
        simp
      rw [heq]
      have hlen : t.length ≤ n := by
        have hlen' : t.length + 1 ≤ l.length := by
          rw [hlsplit, List.length_append, List.length_cons]
          omega
        omega
      exact noBlankB_squash_append _ c _ hws hc (noBlankB_nlCollapse n t hlen)

/-- Trimming preserves blank-line freedom. -/
theorem noBlankB_trimWs (l : List Char) (h : noBlankB l = true) :
    noBlankB (trimWs l) = true := by
  rw [trimWs]
  have h1 : noBlankB (l.dropWhile isJsWs) = true := by
    refine noBlankB_append_right (l.takeWhile isJsWs) _ ?_
    rw [List.takeWhile_append_dropWhile]
    exact h
  have hw2 : l.dropWhile isJsWs =
      ((l.dropWhile isJsWs).reverse.dropWhile isJsWs).reverse ++
        ((l.dropWhile isJsWs).reverse.takeWhile isJsWs).reverse := by
    conv_lhs => rw [← List.reverse_reverse (l.dropWhile isJsWs),
      ← List.takeWhile_append_dropWhile isJsWs (l.dropWhile isJsWs).reverse]
    rw [List.reverse_append]
  rw [hw2] at h1
  exact noBlankB_append_left _ _ h1

/-- Trimming preserves any adjacency invariant. -/
theorem chain'_trimWs {R : Char → Char → Prop} (l : List Char)
    (h : List.Chain' R l) : List.Chain' R (trimWs l) := by
  rw [trimWs]
  have h1 : List.Chain' R (l.dropWhile isJsWs) := by
    have h' := h
    rw [← List.takeWhile_append_dropWhile isJsWs l] at h'
    exact (List.chain'_append.mp h').2.1
  have h2 : List.Chain' (flip R) (l.dropWhile isJsWs).reverse := by
    rw [List.chain'_reverse]
    exact h1
  have h3 : List.Chain' (flip R) ((l.dropWhile isJsWs).reverse.dropWhile isJsWs) := by
    have h' := h2
    rw [← List.takeWhile_append_dropWhile isJsWs (l.dropWhile isJsWs).reverse] at h'
    exact (List.chain'_append.mp h').2.1
  rw [List.chain'_reverse]
  exact h3

/-- A newline never forms a repeatable-punctuation pair. -/
theorem noDupRep_nl_left (x : Char) : noDupRep '\n' x := by
  rintro ⟨_, hrep⟩
  exact absurd hrep (by decide)

/-- A newline never forms a repeatable-punctuation pair, right version. -/
theorem noDupRep_nl_right (x : Char) : noDupRep x '\n' := by
  rintro ⟨he, hrep⟩
  subst he
  exact absurd hrep (by decide)

/-- A newline never forms a double-space pair, left version. -/
theorem noTwoSp_nl_left (x : Char) : noTwoSp '\n' x := by
  rintro ⟨h1, _⟩
  exact absurd h1 (by decide)

/-- A newline never forms a double-space pair, right version. -/
theorem noTwoSp_nl_right (x : Char) : noTwoSp x '\n' := by
  rintro ⟨_, h2⟩
  exact absurd h2 (by decide)

/-! ## Claim C3 (cleaned-text invariant) -/

/-- C3, counterexample: the cleaned form of `中!!中` is `中!中`, whose
middle character is a special symbol (not CJK, not alphanumeric, not
whitespace, not allowed punctuation) standing directly between two CJK
ideographs — so the claimed isolated-symbol part of the invariant does not
hold for every output of `cleanOcrText`. -/
theorem C3_counterexample :
    (cleanOcrText "中!!中").data = ['中', '!', '中'] ∧
    isCJK '中' = true ∧ isSpecialSym '!' = true ∧ isAlnumL '!' = false ∧
    isJsWs '!' = false ∧ allowedPunct '!' = false := by decide

/-- C3, amended: every output of `cleanOcrText` satisfies the remaining
three parts of the invariant — no two adjacent identical repeatable
punctuation marks (no run of length greater than one), no two adjacent
plain spaces (no internal space run), and no blank line (after every
newline, the following whitespace run contains no further newline); the
isolated-symbol part of the invariant can fail, since punctuation-run
collapsing may create a new isolated symbol between CJK ideographs. -/
theorem C3_holds (s : String) :
    List.Chain' noDupRep (cleanOcrText s).data ∧
    List.Chain' noTwoSp (cleanOcrText s).data ∧
    noBlankB (cleanOcrText s).data = true := by
  rw [cleanOcrText]
  by_cases hs : s = ""
  · rw [if_pos hs]
    exact ⟨List.chain'_nil, List.chain'_nil, rfl⟩
  · rw [if_neg hs]
    show List.Chain' noDupRep (cleanL s.data) ∧
      List.Chain' noTwoSp (cleanL s.data) ∧ noBlankB (cleanL s.data) = true
    rw [cleanL]
    generalize step2Aux none (s.data.filter (fun c => !denyl c)) = u
    have hcr : List.Chain' noDupRep (collapseRuns u) := chain'_collapseRuns u
    have hd2 : List.Chain' noDupRep (collapseSpaces (collapseRuns u)) :=
      collapseSpaces_chain' _ hcr
    have hs2 : List.Chain' noTwoSp (collapseSpaces (collapseRuns u)) :=
      collapseSpaces_noTwoSp (collapseRuns u)
    have hd3 : List.Chain' noDupRep (nlCollapse (collapseSpaces (collapseRuns u))) :=
      nlCollapse_chain' noDupRep_nl_right noDupRep_nl_left
        (collapseSpaces (collapseRuns u)).length _ le_rfl hd2
    have hs3 : List.Chain' noTwoSp (nlCollapse (collapseSpaces (collapseRuns u))) :=
      nlCollapse_chain' noTwoSp_nl_right noTwoSp_nl_left
        (collapseSpaces (collapseRuns u)).length _ le_rfl hs2
    have hb3 : noBlankB (nlCollapse (collapseSpaces (collapseRuns u))) = true :=
      noBlankB_nlCollapse (collapseSpaces (collapseRuns u)).length _ le_rfl
    exact ⟨chain'_trimWs _ hd3, chain'_trimWs _ hs3, noBlankB_trimWs _ hb3⟩
